import Mathlib

/-!
Shallow embedding of the expense-tracker CLI (src/main.go) and proofs about it.

Modelling conventions:
* Go `float64` currency amounts are modelled as `ℚ` (exact arithmetic on the
  decimal values appearing in the program).
* `time.Time` timestamps are modelled as abstract `Nat` ticks; the host clock
  (`time.Now()`) is passed to each command as an explicit parameter
  (`today` as a date string, `now` as a tick, `curMonth`/`curYear` as numbers).
* Go strings are Lean `String`s; helpers that Go takes from its standard
  library (`strings.TrimSpace`, `strings.EqualFold`, byte-wise `<` on strings,
  `time.Parse "2006-01-02"`) are re-implemented below on `List Char` so that
  they compute by kernel reduction.
* The persisted JSON file is modelled by the inductive `J`; `save` encodes a
  store, `loadStore` takes `Option J` (`none` = file does not exist) and
  decodes, mirroring `encoding/json` field-by-field with Go zero-value
  defaults for absent fields.
* Each CLI command is a pure function from the loaded store (plus arguments
  and clock) to `Except Err (new store × printed payload)`; a command that
  returns an error never reaches `save`, so the persisted store is unchanged,
  which `step` makes explicit.
-/

namespace ExpTrack

/-- One spending record (struct `Expense` in main.go). -/
structure Expense where
  id : Nat
  date : String
  description : String
  amount : ℚ
  category : String
  createdAt : Nat
  updatedAt : Nat
deriving DecidableEq, Repr

/-- The whole persisted universe (struct `Store` in main.go).  The Go
`map[string]float64` budgets map is modelled as an association list with
at most one entry per key (map writes replace the first matching entry). -/
structure Store where
  nextId : Nat
  expenses : List Expense
  budgets : List (String × ℚ)
deriving DecidableEq, Repr

/-- Default category constant (`defaultCat` in main.go). -/
def defaultCat : String := "General"

/-- Whitespace test matching Go `unicode.IsSpace` on the Latin-1 range. -/
def goSpace (c : Char) : Bool :=
  c == ' ' || c == '\t' || c == '\n' || c == Char.ofNat 11 ||
    c == Char.ofNat 12 || c == '\r' || c == Char.ofNat 133 || c == Char.ofNat 160

/-- Go `strings.TrimSpace`: drop leading and trailing whitespace. -/
def goTrim (s : String) : String :=
  String.mk (((s.data.dropWhile goSpace).reverse.dropWhile goSpace).reverse)

/-- ASCII lower-casing of one character (the case folding Go's
`strings.EqualFold` performs on ASCII input). -/
def goLower (c : Char) : Char :=
  if 'A' ≤ c && c ≤ 'Z' then Char.ofNat (c.toNat + 32) else c

/-- Go `strings.EqualFold`, restricted to the ASCII folding the repository
uses for category names. -/
def eqFold (a b : String) : Bool :=
  a.data.map goLower == b.data.map goLower

/-- Lexicographic strict comparison of character lists; models Go's byte-wise
`<` on (valid UTF-8) strings, which agrees with code-point order. -/
def ltChars : List Char → List Char → Bool
  | [], [] => false
  | [], _ :: _ => true
  | _ :: _, [] => false
  | a :: as, b :: bs => if a < b then true else if b < a then false else ltChars as bs

/-- Leap-year test of the proleptic Gregorian calendar (as in Go `time`). -/
def isLeap (y : Nat) : Bool :=
  (y % 4 == 0 && y % 100 != 0) || y % 400 == 0

/-- Number of days of month `m` of year `y` (as validated by Go `time.Parse`). -/
def daysInMonth (y m : Nat) : Nat :=
  if m == 2 then (if isLeap y then 29 else 28)
  else if m == 4 || m == 6 || m == 9 || m == 11 then 30
  else 31

/-- Numeric value of a decimal digit character. -/
def digitVal (c : Char) : Nat := c.toNat - '0'.toNat

/-- Go `time.Parse("2006-01-02", s)`: exactly `YYYY-MM-DD` with zero-padded
fields, month 1..12 and day within the month's length.  Returns
`(year, month, day)` on success. -/
def parseDate (s : String) : Option (Nat × Nat × Nat) :=
  match s.data with
  | [y1, y2, y3, y4, h1, m1, m2, h2, d1, d2] =>
    if y1.isDigit && y2.isDigit && y3.isDigit && y4.isDigit &&
        h1 == '-' && m1.isDigit && m2.isDigit && h2 == '-' &&
        d1.isDigit && d2.isDigit then
      let y := ((digitVal y1 * 10 + digitVal y2) * 10 + digitVal y3) * 10 + digitVal y4
      let m := digitVal m1 * 10 + digitVal m2
      let d := digitVal d1 * 10 + digitVal d2
      if 1 ≤ m && m ≤ 12 && 1 ≤ d && d ≤ daysInMonth y m then some (y, m, d) else none
    else none
  | _ => none

/-- Zero-padded two-digit rendering (`%02d`). -/
def pad2 (n : Nat) : String :=
  if n < 10 then "0" ++ toString n else toString n

/-- Zero-padded four-digit rendering (`%04d`, and Go `time.Format "2006"`). -/
def pad4 (n : Nat) : String :=
  if n < 10 then "000" ++ toString n
  else if n < 100 then "00" ++ toString n
  else if n < 1000 then "0" ++ toString n
  else toString n

/-- The `YYYY-MM` month key of a month/year pair (`fmt.Sprintf "%04d-%02d"`). -/
def mkKey (y m : Nat) : String := pad4 y ++ "-" ++ pad2 m

/-- `monthKeyFromDate` in main.go: parse the date, render its `YYYY-MM` key. -/
def monthKeyFromDate (date : String) : Option String :=
  (parseDate date).map (fun p => mkKey p.1 p.2.1)

/-- Lookup in the budgets association list (Go map read `st.Budgets[mk]`). -/
def lookupBudget (bs : List (String × ℚ)) (mk : String) : Option ℚ :=
  (bs.find? (fun p => p.1 == mk)).map (fun p => p.2)

/-- Overwriting insert into the budgets association list (Go map write). -/
def setAssoc (bs : List (String × ℚ)) (k : String) (v : ℚ) : List (String × ℚ) :=
  match bs with
  | [] => [(k, v)]
  | p :: rest => if p.1 == k then (k, v) :: rest else p :: setAssoc rest k v

/-- `(*Store).sumForMonth` in main.go: total of amounts whose date parses into
the given month key, optionally restricted to a category (case-insensitive);
expenses with unparseable dates are skipped. -/
def sumForMonth (st : Store) (key category : String) : ℚ :=
  st.expenses.foldl
    (fun total e =>
      match monthKeyFromDate e.date with
      | none => total
      | some mk =>
        if mk == key && (category == "" || eqFold category e.category) then
          total + e.amount
        else total)
    0

/-- `(*Store).findByID` in main.go: the first expense with the given id. -/
def findByID (st : Store) (i : Nat) : Option Expense :=
  st.expenses.find? (fun e => e.id == i)

/-- Replace the first expense whose id matches (the in-place mutation through
the pointer `findByID` returns in Go). -/
def replaceByID (es : List Expense) (i : Nat) (e' : Expense) : List Expense :=
  match es with
  | [] => []
  | e :: rest => if e.id == i then e' :: rest else e :: replaceByID rest i e'

/-- Remove the first expense whose id matches (`append(exps[:idx], exps[idx+1:]...)`). -/
def removeByID (es : List Expense) (i : Nat) : List Expense :=
  match es with
  | [] => []
  | e :: rest => if e.id == i then rest else e :: removeByID rest i

/-- Payload of the budget-exceeded warning line. -/
structure BudgetWarning where
  monthKey : String
  budget : ℚ
  spent : ℚ
deriving DecidableEq, Repr

/-- `warnIfBudgetExceeded` in main.go: emits a warning exactly when the date's
month key has a configured budget `> 0` and the month's total strictly
exceeds it.  Purely advisory: it only produces the optional message. -/
def warnIfBudgetExceeded (st : Store) (date category : String) : Option BudgetWarning :=
  match monthKeyFromDate date with
  | none => none
  | some mk =>
    match lookupBudget st.budgets mk with
    | none => none
    | some budget =>
      if budget ≤ 0 then none
      else
        let total := sumForMonth st mk category
        if budget < total then some ⟨mk, budget, total⟩ else none

/-- Error taxonomy of the command layer. -/
inductive Err where
  | validation : String → Err
  | notFound : Nat → Err
  | corruptStore : Err
deriving DecidableEq, Repr

/-- `parseDateOrToday` in main.go: empty (after trim) means the host clock's
current date (passed in as `today`); otherwise the text must parse. -/
def parseDateOrToday (s today : String) : Except Err String :=
  if goTrim s == "" then .ok today
  else if (parseDate s).isSome then .ok s
  else .error (.validation "invalid date, expected YYYY-MM-DD")

/-- Arguments of the `add` command.  `category = none` models the flag being
omitted entirely (the Go flag then carries its default `"General"`). -/
structure AddArgs where
  description : String
  amount : ℚ
  date : String
  category : Option String
deriving DecidableEq, Repr

/-- `cmdAdd` in main.go, from the point where the store has been loaded:
validates, appends the new expense, bumps `nextId`, and reports the new id
together with the (optional) budget warning computed on the saved store. -/
def cmdAdd (st : Store) (a : AddArgs) (today : String) (now : Nat) :
    Except Err (Store × Nat × Option BudgetWarning) :=
  if goTrim a.description == "" then .error (.validation "--description is required")
  else if a.amount ≤ 0 then .error (.validation "--amount must be > 0")
  else
    match parseDateOrToday a.date today with
    | .error err => .error err
    | .ok d =>
      let e : Expense :=
        ⟨st.nextId, d, goTrim a.description, a.amount,
          goTrim (a.category.getD defaultCat), now, now⟩
      let st' : Store := ⟨st.nextId + 1, st.expenses ++ [e], st.budgets⟩
      .ok (st', e.id, warnIfBudgetExceeded st' e.date "")

/-- Arguments of the `update` command.  `amount = none` models the `floatFlag`
not having been set on the command line (tri-state flag in main.go). -/
structure UpdateArgs where
  id : Nat
  description : String
  amount : Option ℚ
  date : String
  category : String
deriving DecidableEq, Repr

/-- Description step of `cmdUpdate`: applied only when non-empty after trim. -/
def applyDescription (e : Expense) (descr : String) : Expense :=
  if goTrim descr == "" then e else { e with description := goTrim descr }

/-- Amount step of `cmdUpdate`: applied only when the flag was set, and the
whole update fails when the supplied value is not positive. -/
def applyAmount (e : Expense) (amt : Option ℚ) : Except Err Expense :=
  match amt with
  | none => .ok e
  | some v =>
    if v ≤ 0 then .error (.validation "--amount must be a positive number")
    else .ok { e with amount := v }

/-- Date step of `cmdUpdate`: applied only when non-empty after trim; the raw
(untrimmed) text must parse and is stored as given. -/
def applyDate (e : Expense) (date : String) : Except Err Expense :=
  if goTrim date == "" then .ok e
  else if (parseDate date).isSome then .ok { e with date := date }
  else .error (.validation "invalid --date")

/-- Category step of `cmdUpdate`: applied only when non-empty after trim. -/
def applyCategory (e : Expense) (cat : String) : Expense :=
  if goTrim cat == "" then e else { e with category := goTrim cat }

/-- `cmdUpdate` in main.go, from the point where the store has been loaded.
The field steps run in source order (description, amount, date, category,
then `updatedAt := now`); an error from the amount or date step aborts the
command before `save`, so the persisted store is untouched. -/
def cmdUpdate (st : Store) (a : UpdateArgs) (now : Nat) :
    Except Err (Store × Option BudgetWarning) :=
  if a.id = 0 then .error (.validation "--id is required")
  else
    match findByID st a.id with
    | none => .error (.notFound a.id)
    | some e =>
      match applyAmount (applyDescription e a.description) a.amount with
      | .error err => .error err
      | .ok e2 =>
        match applyDate e2 a.date with
        | .error err => .error err
        | .ok e3 =>
          let e4 : Expense := { applyCategory e3 a.category with updatedAt := now }
          let st' : Store := { st with expenses := replaceByID st.expenses a.id e4 }
          .ok (st', warnIfBudgetExceeded st' e4.date "")

/-- `cmdDelete` in main.go, from the point where the store has been loaded. -/
def cmdDelete (st : Store) (i : Nat) : Except Err Store :=
  if i = 0 then .error (.validation "--id is required")
  else
    match findByID st i with
    | none => .error (.notFound i)
    | some _ => .ok { st with expenses := removeByID st.expenses i }

/-- `cmdBudget` in main.go.  `setVal` is the value of the `--set` flag whose
Go default is `-1`; any `setVal ≥ 0` takes the set branch and is stored as
given.  Otherwise the configured budget is read: the payload is
`some (budget, spent)` when an active (positive) budget exists, `none` when
no budget is set or the stored value is not positive. -/
def cmdBudget (st : Store) (setVal : ℚ) (month year curMonth curYear : Nat) :
    Except Err (Store × Option (ℚ × ℚ)) :=
  let m := if month = 0 then curMonth else month
  let y := if year = 0 then curYear else year
  if m < 1 ∨ 12 < m then .error (.validation "--month must be 1-12")
  else
    let mk := mkKey y m
    if 0 ≤ setVal then .ok ({ st with budgets := setAssoc st.budgets mk setVal }, none)
    else
      match lookupBudget st.budgets mk with
      | none => .ok (st, none)
      | some b =>
        if b ≤ 0 then .ok (st, none)
        else .ok (st, some (b, sumForMonth st mk ""))

/-- Boolean filter predicate of `filterExpenses` in main.go: category must
match case-insensitively when constrained, and when a month or year
constraint is present the date must parse and match the constrained parts. -/
def matchesFilter (month year : Nat) (category : String) (e : Expense) : Bool :=
  (category == "" || eqFold category e.category) &&
    (if month > 0 || year > 0 then
      match parseDate e.date with
      | none => false
      | some p => (year == 0 || p.1 == year) && (month == 0 || p.2.1 == month)
    else true)

/-- The strict ordering `filterExpenses` sorts with in main.go:
date text first, then id. -/
def expLess (a b : Expense) : Bool :=
  ltChars a.date.data b.date.data || (a.date == b.date && a.id < b.id)

/-- The non-strict order induced by `expLess`; a sequence is sorted in the
sense of Go's `sort.Slice` exactly when every earlier element is `expLe` every
later one. -/
def expLe (a b : Expense) : Bool := !expLess b a

/-- `filterExpenses` in main.go: keep the matching expenses, then sort them so
that no later element is strictly less than an earlier one (the contract of
`sort.Slice` with `expLess`). -/
def filterExpenses (st : Store) (month year : Nat) (category : String) : List Expense :=
  (st.expenses.filter (matchesFilter month year category)).mergeSort expLe

/-- `cmdList` in main.go, reduced to the list of expenses it prints:
month must be 0 or 1..12, and a month without a year defaults the year to the
host clock's current year. -/
def cmdList (st : Store) (month year : Nat) (category : String) (curYear : Nat) :
    Except Err (List Expense) :=
  if month ≠ 0 ∧ (month < 1 ∨ 12 < month) then .error (.validation "--month must be 1-12")
  else
    let y := if month > 0 ∧ year = 0 then curYear else year
    .ok (filterExpenses st month y (goTrim category))

/-- One CSV data row of `cmdExport` (the two-decimal rendering of the amount
is presentation; the row carries the exact value). -/
structure CsvRow where
  id : Nat
  date : String
  description : String
  category : String
  amount : ℚ
deriving DecidableEq, Repr

/-- Projection of an expense onto its CSV row. -/
def csvRow (e : Expense) : CsvRow :=
  ⟨e.id, e.date, e.description, e.category, e.amount⟩

/-- `cmdExport` in main.go, reduced to the data rows written after the header
and the row count it reports; same month validation and year defaulting as
`cmdList`. -/
def cmdExport (st : Store) (month year : Nat) (category : String) (curYear : Nat) :
    Except Err (List CsvRow × Nat) :=
  if month ≠ 0 ∧ (month < 1 ∨ 12 < month) then .error (.validation "--month must be 1-12")
  else
    let y := if month > 0 ∧ year = 0 then curYear else year
    let items := filterExpenses st month y (goTrim category)
    .ok (items.map csvRow, items.length)

/-- JSON values, the model of the persisted `expenses.json` file. -/
inductive J where
  | null : J
  | num : ℚ → J
  | str : String → J
  | arr : List J → J
  | obj : List (String × J) → J

/-- Field lookup in a JSON object. -/
def getField (fs : List (String × J)) (k : String) : Option J :=
  (fs.find? (fun p => p.1 == k)).map (fun p => p.2)

/-- Decode a JSON value into a Go `int`-like field (must be an integral,
non-negative number; anything else is a decode error). -/
def decNat (j : J) : Option Nat :=
  match j with
  | .num q => if q.den = 1 ∧ 0 ≤ q.num then some q.num.toNat else none
  | _ => none

/-- Decode a JSON value into a numeric (`float64`) field. -/
def decQ (j : J) : Option ℚ :=
  match j with
  | .num q => some q
  | _ => none

/-- Decode a JSON value into a string field. -/
def decStr (j : J) : Option String :=
  match j with
  | .str s => some s
  | _ => none

/-- Decode an object field with Go `encoding/json` semantics: an absent field
keeps the zero value, a present field must decode. -/
def decField (fs : List (String × J)) (k : String) (dec : J → Option α) (dflt : α) :
    Option α :=
  match getField fs k with
  | none => some dflt
  | some j => dec j

/-- Decode one expense object. -/
def decodeExpense (j : J) : Option Expense :=
  match j with
  | .obj fs =>
    match decField fs "id" decNat 0, decField fs "date" decStr "",
        decField fs "description" decStr "", decField fs "amount" decQ 0,
        decField fs "category" decStr "", decField fs "created_at" decNat 0,
        decField fs "updated_at" decNat 0 with
    | some i, some d, some ds, some am, some c, some ca, some ua =>
      some ⟨i, d, ds, am, c, ca, ua⟩
    | _, _, _, _, _, _, _ => none
  | _ => none

/-- Decode a list of expense objects element by element. -/
def decodeExpList : List J → Option (List Expense)
  | [] => some []
  | x :: xs =>
    match decodeExpense x, decodeExpList xs with
    | some e, some es => some (e :: es)
    | _, _ => none

/-- Decode the expenses array (JSON `null` decodes into a nil slice). -/
def decodeExpenses (j : J) : Option (List Expense) :=
  match j with
  | .null => some []
  | .arr xs => decodeExpList xs
  | _ => none

/-- Decode the key-value pairs of the budgets object. -/
def decodeBudgetPairs : List (String × J) → Option (List (String × ℚ))
  | [] => some []
  | p :: ps =>
    match decQ p.2, decodeBudgetPairs ps with
    | some q, some qs => some ((p.1, q) :: qs)
    | _, _ => none

/-- Decode the budgets map; `some none` is a JSON `null` map, which post-load
normalization turns into the empty map. -/
def decodeBudgets (j : J) : Option (Option (List (String × ℚ))) :=
  match j with
  | .null => some none
  | .obj fs => (decodeBudgetPairs fs).map (fun l => some l)
  | _ => none

/-- A decoded store before post-load normalization. -/
structure RawStore where
  nextId : Nat
  expenses : List Expense
  budgets : Option (List (String × ℚ))
deriving Repr

/-- Decode the whole store object with Go zero-value defaults for absent
fields. -/
def decodeStore (j : J) : Option RawStore :=
  match j with
  | .obj fs =>
    match decField fs "next_id" decNat 0, decField fs "expenses" decodeExpenses [],
        decField fs "budgets" decodeBudgets none with
    | some nid, some es, some bs => some ⟨nid, es, bs⟩
    | _, _, _ => none
  | _ => none

/-- Encode one expense (field names as in the Go struct tags). -/
def encodeExpense (e : Expense) : J :=
  .obj [("id", .num e.id), ("date", .str e.date), ("description", .str e.description),
    ("amount", .num e.amount), ("category", .str e.category),
    ("created_at", .num e.createdAt), ("updated_at", .num e.updatedAt)]

/-- `(*Store).save` in main.go, reduced to the JSON value atomically written
over the data file. -/
def save (st : Store) : J :=
  .obj [("next_id", .num st.nextId),
    ("expenses", .arr (st.expenses.map encodeExpense)),
    ("budgets", .obj (st.budgets.map (fun p => (p.1, .num p.2))))]

/-- `loadStore` in main.go.  `none` models the data file not existing (fresh
store, not an error); an unparseable file is a corrupt-store error; a decoded
store is normalized: null budgets become the empty map, a zero `nextId`
becomes 1. -/
def loadStore (file : Option J) : Except Err Store :=
  match file with
  | none => .ok ⟨1, [], []⟩
  | some j =>
    match decodeStore j with
    | none => .error .corruptStore
    | some r => .ok ⟨if r.nextId = 0 then 1 else r.nextId, r.expenses, r.budgets.getD []⟩

/-- The store a first invocation starts from. -/
def freshStore : Store := ⟨1, [], []⟩

/-- One mutating CLI invocation, with the host-clock inputs it observed. -/
inductive Op where
  | add : AddArgs → String → Nat → Op
  | update : UpdateArgs → Nat → Op
  | delete : Nat → Op
  | budget : ℚ → Nat → Nat → Nat → Nat → Op

/-- Effect of one invocation on the persisted store: a command that fails
never reaches `save`, so the persisted store is unchanged. -/
def step (st : Store) : Op → Store
  | .add a today now =>
    match cmdAdd st a today now with
    | .ok (st', _, _) => st'
    | .error _ => st
  | .update a now =>
    match cmdUpdate st a now with
    | .ok (st', _) => st'
    | .error _ => st
  | .delete i =>
    match cmdDelete st i with
    | .ok st' => st'
    | .error _ => st
  | .budget setVal month year cm cy =>
    match cmdBudget st setVal month year cm cy with
    | .ok (st', _) => st'
    | .error _ => st

/-- Every expense id is below the `nextId` counter. -/
def idsBound (st : Store) : Prop :=
  ∀ e ∈ st.expenses, e.id < st.nextId

instance : DecidablePred idsBound := fun st =>
  inferInstanceAs (Decidable (∀ e ∈ st.expenses, e.id < st.nextId))

/-! Lexicographic order toolkit for `ltChars`. -/

theorem ltChars_irrefl (l : List Char) : ltChars l l = false := by
  induction l with
  | nil => rfl
  | cons a as ih => simp [ltChars, ih]

theorem ltChars_asymm : ∀ {l₁ l₂ : List Char}, ltChars l₁ l₂ = true → ltChars l₂ l₁ = false
  | [], [], h => by simp [ltChars] at h
  | [], _ :: _, _ => by simp [ltChars]
  | _ :: _, [], h => by simp [ltChars] at h
  | a :: as, b :: bs, h => by
    by_cases hab : a < b
    · simp [ltChars, hab, asymm hab]
    · by_cases hba : b < a
      · simp [ltChars, hab, hba] at h
      · simp only [ltChars, if_neg hab, if_neg hba] at h
        simp [ltChars, hab, hba, ltChars_asymm h]

theorem ltChars_trans : ∀ {l₁ l₂ l₃ : List Char},
    ltChars l₁ l₂ = true → ltChars l₂ l₃ = true → ltChars l₁ l₃ = true
  | [], _, _ :: _, _, _ => by simp [ltChars]
  | [], b, [], _, h₂ => by cases b <;> simp [ltChars] at h₂
  | _ :: _, [], _, h₁, _ => by simp [ltChars] at h₁
  | a :: as, b :: bs, [], _, h₂ => by simp [ltChars] at h₂
  | a :: as, b :: bs, c :: cs, h₁, h₂ => by
    by_cases hab : a < b <;> by_cases hbc : b < c
    · simp [ltChars, lt_trans hab hbc]
    · have hcb : ¬ c < b := fun h => by simp [ltChars, h, asymm h] at h₂
      have : b = c := le_antisymm (not_lt.mp hcb) (not_lt.mp hbc)
      subst this
      simp [ltChars, hab]
    · have hba : ¬ b < a := fun h => by simp [ltChars, h, asymm h] at h₁
      have : a = b := le_antisymm (not_lt.mp hba) (not_lt.mp hab)
      subst this
      simp [ltChars, hbc]
    · have hba : ¬ b < a := fun h => by simp [ltChars, h, asymm h] at h₁
      have hcb : ¬ c < b := fun h => by simp [ltChars, h, asymm h] at h₂
      have hab2 : a = b := le_antisymm (not_lt.mp hba) (not_lt.mp hab)
      have hbc2 : b = c := le_antisymm (not_lt.mp hcb) (not_lt.mp hbc)
      subst hab2; subst hbc2
      simp only [ltChars, if_neg hab, if_neg hba] at h₁ h₂ ⊢
      exact ltChars_trans h₁ h₂

theorem eq_of_ltChars_false : ∀ {l₁ l₂ : List Char},
    ltChars l₁ l₂ = false → ltChars l₂ l₁ = false → l₁ = l₂
  | [], [], _, _ => rfl
  | [], _ :: _, h₁, _ => by simp [ltChars] at h₁
  | _ :: _, [], _, h₂ => by simp [ltChars] at h₂
  | a :: as, b :: bs, h₁, h₂ => by
    by_cases hab : a < b
    · simp [ltChars, hab] at h₁
    · by_cases hba : b < a
      · simp [ltChars, hba] at h₂
      · have : a = b := le_antisymm (not_lt.mp hba) (not_lt.mp hab)
        subst this
        simp only [ltChars, if_neg hab] at h₁ h₂
        rw [eq_of_ltChars_false h₁ h₂]

theorem date_eq_of_data_eq {a b : Expense} (h : a.date.data = b.date.data) :
    a.date = b.date := by
  have := congrArg String.mk h
  simpa using this

/-! Order facts for `expLess` and `expLe`. -/

theorem expLess_asymm {a b : Expense} (h : expLess a b = true) : expLess b a = false := by
  unfold expLess at h ⊢
  rcases Bool.or_eq_true_iff.mp h with h1 | h2
  · have := ltChars_asymm h1
    simp only [this, Bool.false_or, Bool.and_eq_false_iff]
    by_cases hd : b.date == a.date
    · have : b.date = a.date := by simpa using hd
      rw [this] at h1
      simp [ltChars_irrefl] at h1
    · simp [hd]
  · rcases Bool.and_eq_true_iff.mp h2 with ⟨hd, hid⟩
    have hde : a.date = b.date := by simpa using hd
    rw [hde, ltChars_irrefl]
    simp only [Bool.false_or, Bool.and_eq_false_iff]
    right
    simp only [decide_eq_false_iff_not, not_lt]
    exact le_of_lt (by simpa using hid)

theorem expLess_semitrans {a b c : Expense} (h : expLess c a = true) :
    expLess c b = true ∨ expLess b a = true := by
  unfold expLess at h ⊢
  by_cases hcb : ltChars c.date.data b.date.data
  · left; simp [hcb]
  · by_cases hbc : ltChars b.date.data c.date.data
    · right
      rcases Bool.or_eq_true_iff.mp h with h1 | h2
      · simp [ltChars_trans hbc h1]
      · rcases Bool.and_eq_true_iff.mp h2 with ⟨hd, _⟩
        have hde : c.date = a.date := by simpa using hd
        rw [← hde]
        simp [hbc]
    · have hdbc : b.date.data = c.date.data :=
        eq_of_ltChars_false (Bool.not_eq_true _ ▸ hbc) (Bool.not_eq_true _ ▸ hcb)
      have hdbc' : b.date = c.date := date_eq_of_data_eq hdbc
      rcases Bool.or_eq_true_iff.mp h with h1 | h2
      · right
        rw [hdbc, hdbc']
        simp [h1]
      · rcases Bool.and_eq_true_iff.mp h2 with ⟨hd, hid⟩
        have hde : c.date = a.date := by simpa using hd
        have hlt : c.id < a.id := by simpa using hid
        rcases Nat.lt_or_ge c.id b.id with hcb2 | hbc2
        · left
          simp [hdbc', hcb2]
        · right
          have : b.id < a.id := lt_of_le_of_lt hbc2 hlt
          simp [hdbc', hde, this]

theorem expLe_total (a b : Expense) : (expLe a b || expLe b a) = true := by
  unfold expLe
  by_cases h : expLess b a = true
  · simp [expLess_asymm h]
  · simp [Bool.not_eq_true _ ▸ h]

theorem expLe_trans (a b c : Expense) (h₁ : expLe a b = true) (h₂ : expLe b c = true) :
    expLe a c = true := by
  unfold expLe at h₁ h₂ ⊢
  simp only [Bool.not_eq_true'] at h₁ h₂ ⊢
  by_contra hca
  rcases expLess_semitrans (Bool.not_eq_false _ ▸ hca) with h | h
  · rw [h₂] at h; cases h
  · rw [h₁] at h; cases h

theorem expLe_iff (a b : Expense) : expLe a b = true ↔
    ltChars a.date.data b.date.data = true ∨ (a.date = b.date ∧ a.id ≤ b.id) := by
  unfold expLe expLess
  constructor
  · intro h
    simp only [Bool.not_eq_true', Bool.or_eq_false_iff, Bool.and_eq_false_iff] at h
    obtain ⟨hba, hrest⟩ := h
    by_cases hab : ltChars a.date.data b.date.data
    · left; exact hab
    · right
      have hdata : b.date.data = a.date.data :=
        eq_of_ltChars_false hba (Bool.not_eq_true _ ▸ hab)
      have hdate : b.date = a.date := by
        have := congrArg String.mk hdata
        simpa using this
      refine ⟨hdate.symm, ?_⟩
      rcases hrest with hne | hle
      · exact absurd hdate (by simpa using hne)
      · simpa using hle
  · intro h
    simp only [Bool.not_eq_true', Bool.or_eq_false_iff, Bool.and_eq_false_iff]
    rcases h with hlt | ⟨hdate, hle⟩
    · refine ⟨ltChars_asymm hlt, ?_⟩
      left
      simp only [beq_eq_false_iff_ne, ne_eq]
      intro heq
      rw [heq] at hlt
      simp [ltChars_irrefl] at hlt
    · rw [hdate, ltChars_irrefl]
      refine ⟨rfl, Or.inr ?_⟩
      simp only [decide_eq_false_iff_not, not_lt]
      exact hle

/-! Characterization of the filter predicate and the sorted filter result. -/

theorem matchesFilter_iff (month year : Nat) (category : String) (e : Expense) :
    matchesFilter month year category e = true ↔
      ((category = "" ∨ eqFold category e.category = true) ∧
        ((month = 0 ∧ year = 0) ∨
          ∃ y m d, parseDate e.date = some (y, m, d) ∧
            (year = 0 ∨ y = year) ∧ (month = 0 ∨ m = month))) := by
  unfold matchesFilter
  by_cases hg : (decide (month > 0) || decide (year > 0)) = true
  · rw [if_pos hg]
    have hnz : ¬(month = 0 ∧ year = 0) := by
      simp only [Bool.or_eq_true, decide_eq_true_eq] at hg
      omega
    cases hp : parseDate e.date with
    | none =>
      simp only [Bool.and_eq_true, Bool.or_eq_true, beq_iff_eq]
      constructor
      · rintro ⟨-, h⟩; cases h
      · rintro ⟨-, h | ⟨y, m, d, hpd, -⟩⟩
        · exact absurd h hnz
        · simp at hpd
    | some p =>
      obtain ⟨y, m, d⟩ := p
      simp only [Bool.and_eq_true, Bool.or_eq_true, beq_iff_eq, decide_eq_true_eq,
        Option.some.injEq]
      constructor
      · rintro ⟨hc, hy, hm⟩
        exact ⟨hc, Or.inr ⟨y, m, d, rfl, hy, hm⟩⟩
      · rintro ⟨hc, h | ⟨y', m', d', hpd, hy, hm⟩⟩
        · exact absurd h hnz
        · obtain ⟨rfl, rfl, rfl⟩ := hpd
          exact ⟨hc, hy, hm⟩
  · rw [if_neg hg]
    have hz : month = 0 ∧ year = 0 := by
      simp only [Bool.or_eq_true, decide_eq_true_eq] at hg
      omega
    simp only [Bool.and_eq_true, Bool.or_eq_true, beq_iff_eq, and_true]
    constructor
    · rintro hc
      exact ⟨hc, Or.inl hz⟩
    · rintro ⟨hc, -⟩
      exact hc

theorem mem_filterExpenses (st : Store) (month year : Nat) (category : String) (e : Expense) :
    e ∈ filterExpenses st month year category ↔
      e ∈ st.expenses ∧ matchesFilter month year category e = true := by
  unfold filterExpenses
  rw [List.mem_mergeSort, List.mem_filter]

theorem pairwise_filterExpenses (st : Store) (month year : Nat) (category : String) :
    (filterExpenses st month year category).Pairwise (fun a b => expLe a b = true) :=
  List.sorted_mergeSort (fun a b c => expLe_trans a b c) expLe_total _

/-! Inversion lemmas: what a successful command did to the store. -/

theorem cmdAdd_ok {st : Store} {a : AddArgs} {today : String} {now : Nat}
    {st' : Store} {nid : Nat} {w : Option BudgetWarning}
    (h : cmdAdd st a today now = .ok (st', nid, w)) :
    ∃ d, parseDateOrToday a.date today = .ok d ∧
      st' = ⟨st.nextId + 1,
        st.expenses ++ [⟨st.nextId, d, goTrim a.description, a.amount,
          goTrim (a.category.getD defaultCat), now, now⟩], st.budgets⟩ ∧
      nid = st.nextId ∧ w = warnIfBudgetExceeded st' d "" := by
  unfold cmdAdd at h
  split at h
  · exact absurd h (by simp)
  · split at h
    · exact absurd h (by simp)
    · split at h
      · exact absurd h (by simp)
      · rename_i d heq
        simp only [Except.ok.injEq, Prod.mk.injEq] at h
        obtain ⟨h1, h2, h3⟩ := h
        subst h1; subst h2; subst h3
        exact ⟨d, heq, rfl, rfl, rfl⟩

theorem cmdUpdate_ok {st : Store} {a : UpdateArgs} {now : Nat}
    {st' : Store} {w : Option BudgetWarning}
    (h : cmdUpdate st a now = .ok (st', w)) :
    a.id ≠ 0 ∧ ∃ e e2 e3 e4,
      findByID st a.id = some e ∧
      applyAmount (applyDescription e a.description) a.amount = .ok e2 ∧
      applyDate e2 a.date = .ok e3 ∧
      e4 = { applyCategory e3 a.category with updatedAt := now } ∧
      st' = { st with expenses := replaceByID st.expenses a.id e4 } ∧
      w = warnIfBudgetExceeded st' e4.date "" := by
  unfold cmdUpdate at h
  split at h
  · exact absurd h (by simp)
  · rename_i hid
    split at h
    · exact absurd h (by simp)
    · rename_i e hfind
      split at h
      · exact absurd h (by simp)
      · rename_i e2 hamt
        split at h
        · exact absurd h (by simp)
        · rename_i e3 hdate
          simp only [Except.ok.injEq, Prod.mk.injEq] at h
          obtain ⟨h1, h2⟩ := h
          subst h1; subst h2
          exact ⟨hid, e, e2, e3, _, hfind, hamt, hdate, rfl, rfl, rfl⟩

theorem cmdDelete_ok {st : Store} {i : Nat} {st' : Store}
    (h : cmdDelete st i = .ok st') :
    i ≠ 0 ∧ (∃ e, findByID st i = some e) ∧
      st' = { st with expenses := removeByID st.expenses i } := by
  unfold cmdDelete at h
  split at h
  · exact absurd h (by simp)
  · rename_i hid
    split at h
    · exact absurd h (by simp)
    · rename_i e hfind
      simp only [Except.ok.injEq] at h
      subst h
      exact ⟨hid, ⟨e, hfind⟩, rfl⟩

theorem cmdBudget_ok {st : Store} {setVal : ℚ} {month year cm cy : Nat}
    {st' : Store} {r : Option (ℚ × ℚ)}
    (h : cmdBudget st setVal month year cm cy = .ok (st', r)) :
    st'.nextId = st.nextId ∧ st'.expenses = st.expenses ∧
      ((0 ≤ setVal ∧ st'.budgets =
          setAssoc st.budgets
            (mkKey (if year = 0 then cy else year) (if month = 0 then cm else month))
            setVal) ∨
        (setVal < 0 ∧ st' = st)) := by
  unfold cmdBudget at h
  dsimp only at h
  generalize hm : (if month = 0 then cm else month) = m at h
  generalize hy : (if year = 0 then cy else year) = y at h
  split at h
  · exact absurd h (by simp)
  · split at h
    · rename_i hset
      simp only [Except.ok.injEq, Prod.mk.injEq] at h
      obtain ⟨h1, -⟩ := h
      subst h1
      exact ⟨rfl, rfl, Or.inl ⟨hset, rfl⟩⟩
    · rename_i hset
      have hneg : setVal < 0 := lt_of_not_le hset
      split at h
      · simp only [Except.ok.injEq, Prod.mk.injEq] at h
        obtain ⟨h1, -⟩ := h
        subst h1
        exact ⟨rfl, rfl, Or.inr ⟨hneg, rfl⟩⟩
      · split at h <;>
          · simp only [Except.ok.injEq, Prod.mk.injEq] at h
            obtain ⟨h1, -⟩ := h
            subst h1
            exact ⟨rfl, rfl, Or.inr ⟨hneg, rfl⟩⟩

/-! Helper lemmas about the list-level operations. -/

theorem length_replaceByID (es : List Expense) (i : Nat) (e' : Expense) :
    (replaceByID es i e').length = es.length := by
  induction es with
  | nil => rfl
  | cons e rest ih =>
    unfold replaceByID
    split <;> simp [ih]

theorem getElem?_replaceByID (es : List Expense) (i : Nat) (e' : Expense) :
    ∀ (k : Nat) (x : Expense), es[k]? = some x → x.id ≠ i →
      (replaceByID es i e')[k]? = some x := by
  induction es with
  | nil => intro k x h _; simp at h
  | cons e rest ih =>
    intro k x h hx
    unfold replaceByID
    split
    · rename_i hmatch
      cases k with
      | zero =>
        simp only [List.getElem?_cons_zero, Option.some.injEq] at h
        subst h
        exact absurd (by simpa using hmatch) hx
      | succ k => simpa using h
    · cases k with
      | zero => simpa using h
      | succ k =>
        simp only [List.getElem?_cons_succ] at h ⊢
        exact ih k x h hx

theorem mem_replaceByID {es : List Expense} {i : Nat} {e' x : Expense}
    (h : x ∈ replaceByID es i e') : x = e' ∨ x ∈ es := by
  induction es with
  | nil => simp [replaceByID] at h
  | cons e rest ih =>
    unfold replaceByID at h
    split at h
    · rcases List.mem_cons.mp h with h1 | h1
      · exact Or.inl h1
      · exact Or.inr (List.mem_cons_of_mem _ h1)
    · rcases List.mem_cons.mp h with h1 | h1
      · exact Or.inr (h1 ▸ List.mem_cons_self _ _)
      · rcases ih h1 with h2 | h2
        · exact Or.inl h2
        · exact Or.inr (List.mem_cons_of_mem _ h2)

theorem mem_replaceByID_of_ne {es : List Expense} {i : Nat} {e' x : Expense}
    (h : x ∈ es) (hx : x.id ≠ i) : x ∈ replaceByID es i e' := by
  induction es with
  | nil => simp at h
  | cons e rest ih =>
    unfold replaceByID
    rcases List.mem_cons.mp h with h1 | h1
    · subst h1
      split
      · rename_i hmatch
        exact absurd (by simpa using hmatch) hx
      · exact List.mem_cons_self _ _
    · split
      · exact List.mem_cons_of_mem _ h1
      · exact List.mem_cons_of_mem _ (ih h1)

theorem find?_replaceByID {es : List Expense} {i : Nat} {e' e : Expense}
    (hid : e'.id = i) (hfound : es.find? (fun x => x.id == i) = some e) :
    (replaceByID es i e').find? (fun x => x.id == i) = some e' := by
  induction es with
  | nil => simp [List.find?] at hfound
  | cons x rest ih =>
    unfold replaceByID
    by_cases hmatch : x.id == i
    · rw [if_pos hmatch]
      simp [List.find?, hid]
    · rw [if_neg hmatch]
      rw [List.find?_cons_of_neg _ (by simpa using hmatch)] at hfound
      rw [List.find?_cons_of_neg _ (by simpa using hmatch)]
      exact ih hfound

theorem removeByID_sublist (es : List Expense) (i : Nat) :
    (removeByID es i).Sublist es := by
  induction es with
  | nil => simp [removeByID]
  | cons e rest ih =>
    unfold removeByID
    split
    · exact List.sublist_cons_self e rest
    · exact ih.cons₂ e

theorem lookup_setAssoc_self (bs : List (String × ℚ)) (k : String) (v : ℚ) :
    lookupBudget (setAssoc bs k v) k = some v := by
  induction bs with
  | nil => simp [setAssoc, lookupBudget, List.find?]
  | cons p rest ih =>
    unfold setAssoc
    split
    · simp [lookupBudget, List.find?]
    · rename_i hne
      unfold lookupBudget at ih ⊢
      rw [List.find?_cons_of_neg _ (by simpa using hne)]
      exact ih

theorem lookup_setAssoc_ne (bs : List (String × ℚ)) (k : String) (v : ℚ) (k' : String)
    (h : k' ≠ k) : lookupBudget (setAssoc bs k v) k' = lookupBudget bs k' := by
  induction bs with
  | nil =>
    have hne : (k == k') = false := by simp [Ne.symm h]
    simp [setAssoc, lookupBudget, List.find?, hne]
  | cons p rest ih =>
    unfold setAssoc
    split
    · rename_i heq
      have hpk : p.1 = k := by simpa using heq
      unfold lookupBudget
      rw [List.find?_cons_of_neg _ (by simp [Ne.symm h]),
        List.find?_cons_of_neg _ (by simp [hpk, Ne.symm h])]
    · by_cases hp : p.1 = k'
      · unfold lookupBudget
        rw [List.find?_cons_of_pos _ (by simp [hp]), List.find?_cons_of_pos _ (by simp [hp])]
      · unfold lookupBudget at ih ⊢
        rw [List.find?_cons_of_neg _ (by simpa using hp),
          List.find?_cons_of_neg _ (by simpa using hp)]
        exact ih

theorem mem_setAssoc {bs : List (String × ℚ)} {k : String} {v : ℚ} {p : String × ℚ}
    (h : p ∈ setAssoc bs k v) : p = (k, v) ∨ p ∈ bs := by
  induction bs with
  | nil => simpa [setAssoc] using h
  | cons q rest ih =>
    unfold setAssoc at h
    split at h
    · rcases List.mem_cons.mp h with h1 | h1
      · exact Or.inl h1
      · exact Or.inr (List.mem_cons_of_mem _ h1)
    · rcases List.mem_cons.mp h with h1 | h1
      · exact Or.inr (h1 ▸ List.mem_cons_self _ _)
      · rcases ih h1 with h2 | h2
        · exact Or.inl h2
        · exact Or.inr (List.mem_cons_of_mem _ h2)

/-! Field preservation through the update steps. -/

theorem applyDescription_id (e : Expense) (s : String) : (applyDescription e s).id = e.id := by
  unfold applyDescription; split <;> rfl

theorem applyAmount_ok_id {e e' : Expense} {amt : Option ℚ}
    (h : applyAmount e amt = .ok e') : e'.id = e.id := by
  cases amt with
  | none => simp only [applyAmount, Except.ok.injEq] at h; subst h; rfl
  | some v =>
    simp only [applyAmount] at h
    split at h
    · exact absurd h (by simp)
    · simp only [Except.ok.injEq] at h; subst h; rfl

theorem applyDate_ok_id {e e' : Expense} {s : String}
    (h : applyDate e s = .ok e') : e'.id = e.id := by
  unfold applyDate at h
  split at h
  · simp only [Except.ok.injEq] at h; subst h; rfl
  · split at h
    · simp only [Except.ok.injEq] at h; subst h; rfl
    · exact absurd h (by simp)

theorem applyCategory_id (e : Expense) (s : String) : (applyCategory e s).id = e.id := by
  unfold applyCategory; split <;> rfl

theorem findByID_mem {st : Store} {i : Nat} {e : Expense} (h : findByID st i = some e) :
    e ∈ st.expenses ∧ e.id = i := by
  unfold findByID at h
  exact ⟨List.mem_of_find?_eq_some h, by simpa using List.find?_some h⟩

/-! Step-level invariants of the persisted store. -/

theorem step_nextId_mono (st : Store) (op : Op) : st.nextId ≤ (step st op).nextId := by
  cases op with
  | add a today now =>
    simp only [step]
    split
    · rename_i st' nid w h
      obtain ⟨d, -, hst, -, -⟩ := cmdAdd_ok h
      subst hst
      exact Nat.le_succ _
    · exact le_refl _
  | update a now =>
    simp only [step]
    split
    · rename_i st' w h
      obtain ⟨-, e, e2, e3, e4, -, -, -, -, hst, -⟩ := cmdUpdate_ok h
      subst hst
      exact le_refl _
    · exact le_refl _
  | delete i =>
    simp only [step]
    split
    · rename_i st' h
      obtain ⟨-, -, hst⟩ := cmdDelete_ok h
      subst hst
      exact le_refl _
    · exact le_refl _
  | budget s m y cm cy =>
    simp only [step]
    split
    · rename_i st' r h
      exact le_of_eq (cmdBudget_ok h).1.symm
    · exact le_refl _

theorem foldl_step_nextId_mono (st : Store) (ops : List Op) :
    st.nextId ≤ (ops.foldl step st).nextId := by
  induction ops generalizing st with
  | nil => exact le_refl _
  | cons op rest ih =>
    exact le_trans (step_nextId_mono st op) (ih (step st op))

theorem step_idsBound {st : Store} (h : idsBound st) (op : Op) : idsBound (step st op) := by
  cases op with
  | add a today now =>
    simp only [step]
    split
    · rename_i st' nid w hok
      obtain ⟨d, -, hst, -, -⟩ := cmdAdd_ok hok
      subst hst
      intro e he
      rcases List.mem_append.mp he with h1 | h1
      · exact Nat.lt_succ_of_lt (h e h1)
      · rcases List.mem_singleton.mp h1 with rfl
        exact Nat.lt_succ_self _
    · exact h
  | update a now =>
    simp only [step]
    split
    · rename_i st' w hok
      obtain ⟨-, e, e2, e3, e4, hfind, hamt, hdate, he4, hst, -⟩ := cmdUpdate_ok hok
      subst hst
      intro x hx
      rcases mem_replaceByID hx with rfl | hmem
      · have hid4 : x.id = e.id := by
          subst he4
          show (applyCategory e3 a.category).id = e.id
          rw [applyCategory_id, applyDate_ok_id hdate, applyAmount_ok_id hamt,
            applyDescription_id]
        rw [hid4]
        exact h e (findByID_mem hfind).1
      · exact h x hmem
    · exact h
  | delete i =>
    simp only [step]
    split
    · rename_i st' hok
      obtain ⟨-, -, hst⟩ := cmdDelete_ok hok
      subst hst
      intro x hx
      exact h x ((removeByID_sublist st.expenses i).mem hx)
    · exact h
  | budget s m y cm cy =>
    simp only [step]
    split
    · rename_i st' r hok
      obtain ⟨hnid, hexp, -⟩ := cmdBudget_ok hok
      intro x hx
      rw [hnid]
      exact h x (hexp ▸ hx)
    · exact h

theorem step_budgets_nonneg {st : Store} (h : ∀ p ∈ st.budgets, 0 ≤ p.2) (op : Op) :
    ∀ p ∈ (step st op).budgets, 0 ≤ p.2 := by
  cases op with
  | add a today now =>
    simp only [step]
    split
    · rename_i st' nid w hok
      obtain ⟨d, -, hst, -, -⟩ := cmdAdd_ok hok
      subst hst
      exact h
    · exact h
  | update a now =>
    simp only [step]
    split
    · rename_i st' w hok
      obtain ⟨-, e, e2, e3, e4, -, -, -, -, hst, -⟩ := cmdUpdate_ok hok
      subst hst
      exact h
    · exact h
  | delete i =>
    simp only [step]
    split
    · rename_i st' hok
      obtain ⟨-, -, hst⟩ := cmdDelete_ok hok
      subst hst
      exact h
    · exact h
  | budget s m y cm cy =>
    simp only [step]
    split
    · rename_i st' r hok
      obtain ⟨-, -, hset | hread⟩ := cmdBudget_ok hok
      · obtain ⟨hs0, hbud⟩ := hset
        intro p hp
        rw [hbud] at hp
        rcases mem_setAssoc hp with rfl | hmem
        · exact hs0
        · exact h p hmem
      · rw [hread.2]
        exact h
    · exact h

/-! Round-trip lemmas for the JSON encoding. -/

theorem decNat_num (n : Nat) : decNat (.num n) = some n := by
  simp [decNat, Rat.den_natCast, Rat.num_natCast]

theorem decodeExpense_encode (e : Expense) : decodeExpense (encodeExpense e) = some e := by
  simp [decodeExpense, encodeExpense, decField, getField, List.find?, decNat_num, decQ, decStr]

theorem decodeExpList_encode (es : List Expense) :
    decodeExpList (es.map encodeExpense) = some es := by
  induction es with
  | nil => rfl
  | cons e rest ih =>
    simp [decodeExpList, decodeExpense_encode, ih]

theorem decodeBudgetPairs_encode (bs : List (String × ℚ)) :
    decodeBudgetPairs (bs.map (fun p => (p.1, J.num p.2))) = some bs := by
  induction bs with
  | nil => rfl
  | cons p rest ih =>
    simp [decodeBudgetPairs, decQ, ih]

theorem decodeStore_save (st : Store) :
    decodeStore (save st) = some ⟨st.nextId, st.expenses, some st.budgets⟩ := by
  simp [decodeStore, save, decField, getField, List.find?, decNat_num,
    decodeExpenses, decodeExpList_encode, decodeBudgets, decodeBudgetPairs_encode]

/-- C4: for every store (with the data-model invariant `nextId ≥ 1`, since a
zero `nextId` is rewritten to 1 by post-load normalization), `save` followed by
`load` yields the identical store: same `nextId`, same expenses sequence with
every field equal, same budgets map. -/
theorem save_load_roundtrip (st : Store) (h : st.nextId ≠ 0) :
    loadStore (some (save st)) = .ok st := by
  simp only [loadStore]
  rw [decodeStore_save]
  simp only [Option.getD_some, if_neg h]

/-- Witness for C4 at a concrete store. -/
theorem save_load_roundtrip_witness :
    (Store.mk 3 [⟨1, "2025-03-10", "Lunch", 40, "Food", 7, 8⟩,
        ⟨2, "2025-04-01", "Bus", 2, "Transit", 9, 9⟩] [("2025-03", 50)]).nextId ≠ 0 ∧
      loadStore (some (save (Store.mk 3 [⟨1, "2025-03-10", "Lunch", 40, "Food", 7, 8⟩,
        ⟨2, "2025-04-01", "Bus", 2, "Transit", 9, 9⟩] [("2025-03", 50)]))) =
      .ok (Store.mk 3 [⟨1, "2025-03-10", "Lunch", 40, "Food", 7, 8⟩,
        ⟨2, "2025-04-01", "Bus", 2, "Transit", 9, 9⟩] [("2025-03", 50)]) :=
  ⟨by decide, save_load_roundtrip _ (by decide)⟩

/-- C7: `load` of a missing file is the fresh store `nextId = 1`, no expenses,
empty (non-null) budgets; an existing but unparseable file is a corrupt-store
error; every successfully decoded store is normalized so that a null or absent
budgets map becomes empty and a zero `nextId` becomes 1. -/
theorem loadStore_spec :
    loadStore none = .ok ⟨1, [], []⟩ ∧
    (∀ j, decodeStore j = none → loadStore (some j) = .error .corruptStore) ∧
    (∀ j r, decodeStore j = some r → ∃ st, loadStore (some j) = .ok st ∧
      st.nextId = max 1 r.nextId ∧ st.expenses = r.expenses ∧
      st.budgets = r.budgets.getD []) := by
  refine ⟨rfl, ?_, ?_⟩
  · intro j h
    simp only [loadStore]
    rw [h]
  · intro j r h
    simp only [loadStore]
    rw [h]
    refine ⟨_, rfl, ?_, rfl, rfl⟩
    show (if r.nextId = 0 then 1 else r.nextId) = max 1 r.nextId
    split
    · omega
    · omega

/-- Witness for C7: the empty JSON object decodes with zero `nextId` and an
absent budgets map, and load normalizes both. -/
theorem loadStore_spec_witness :
    decodeStore (J.obj []) = some ⟨0, [], none⟩ ∧
      ∃ st, loadStore (some (J.obj [])) = .ok st ∧
        st.nextId = max 1 (0 : Nat) ∧ st.expenses = ([] : List Expense) ∧
        st.budgets = (none : Option (List (String × ℚ))).getD [] :=
  ⟨rfl, loadStore_spec.2.2 (J.obj []) ⟨0, [], none⟩ rfl⟩

/-- C1: updating an existing expense with an explicitly supplied non-positive
amount fails with a validation error, and the persisted store — hence every
field of the target expense, even when other optional fields such as the
description were supplied too — is unchanged by the failed invocation. -/
theorem update_nonpositive_amount_fails (st : Store) (a : UpdateArgs) (now : Nat) (v : ℚ)
    (hv : a.amount = some v) (hv0 : v ≤ 0) (hf : (findByID st a.id).isSome) :
    (∃ msg, cmdUpdate st a now = .error (.validation msg)) ∧
      step st (.update a now) = st := by
  have herr : ∃ msg, cmdUpdate st a now = .error (.validation msg) := by
    by_cases hid : a.id = 0
    · exact ⟨"--id is required", by unfold cmdUpdate; rw [if_pos hid]⟩
    · obtain ⟨e, he⟩ := Option.isSome_iff_exists.mp hf
      refine ⟨"--amount must be a positive number", ?_⟩
      unfold cmdUpdate
      rw [if_neg hid]
      simp only [he, hv, applyAmount, if_pos hv0]
  obtain ⟨msg, hmsg⟩ := herr
  refine ⟨⟨msg, hmsg⟩, ?_⟩
  simp only [step, hmsg]

/-- Witness for C1: amount 0 with a new description supplied; the command
errors and the persisted store keeps the old description and amount. -/
theorem update_nonpositive_amount_fails_witness :
    (UpdateArgs.mk 1 "NewDesc" (some 0) "" "").amount = some 0 ∧ (0 : ℚ) ≤ 0 ∧
      (findByID ⟨2, [⟨1, "2025-03-10", "Lunch", 40, "Food", 7, 7⟩], []⟩ 1).isSome ∧
      ((∃ msg, cmdUpdate ⟨2, [⟨1, "2025-03-10", "Lunch", 40, "Food", 7, 7⟩], []⟩
          ⟨1, "NewDesc", some 0, "", ""⟩ 9 = .error (.validation msg)) ∧
        step ⟨2, [⟨1, "2025-03-10", "Lunch", 40, "Food", 7, 7⟩], []⟩
          (.update ⟨1, "NewDesc", some 0, "", ""⟩ 9) =
          ⟨2, [⟨1, "2025-03-10", "Lunch", 40, "Food", 7, 7⟩], []⟩) :=
  ⟨rfl, by decide, by decide,
    update_nonpositive_amount_fails _ _ 9 0 rfl (by decide) (by decide)⟩

/-- C9: an update that supplies none of the optional fields refreshes only the
target's `updatedAt`: its other fields are fixed by the record update
`{ e with updatedAt := now }`, every other expense is unchanged position by
position, and `nextId` and the budgets map are untouched. -/
theorem update_noFields_only_updatedAt (st : Store) (i : Nat) (now : Nat) (e : Expense)
    (hf : findByID st i = some e) (hi : i ≠ 0) :
    ∃ st' w, cmdUpdate st ⟨i, "", none, "", ""⟩ now = .ok (st', w) ∧
      st'.nextId = st.nextId ∧ st'.budgets = st.budgets ∧
      st'.expenses = replaceByID st.expenses i { e with updatedAt := now } ∧
      st'.expenses.length = st.expenses.length ∧
      findByID st' i = some { e with updatedAt := now } ∧
      (∀ (k : Nat) (x : Expense), st.expenses[k]? = some x → x.id ≠ i →
        st'.expenses[k]? = some x) := by
  have hid : ({ e with updatedAt := now } : Expense).id = i := (findByID_mem hf).2
  have heq : cmdUpdate st ⟨i, "", none, "", ""⟩ now =
      .ok ({ st with expenses := replaceByID st.expenses i { e with updatedAt := now } },
        warnIfBudgetExceeded
          { st with expenses := replaceByID st.expenses i { e with updatedAt := now } }
          e.date "") := by
    unfold cmdUpdate
    rw [if_neg hi, hf]
    rfl
  refine ⟨_, _, heq, rfl, rfl, rfl, length_replaceByID _ _ _, ?_, ?_⟩
  · show (replaceByID st.expenses i { e with updatedAt := now }).find?
      (fun x => x.id == i) = some { e with updatedAt := now }
    exact find?_replaceByID hid hf
  · exact getElem?_replaceByID st.expenses i _

/-- Witness for C9 at a concrete two-expense store. -/
theorem update_noFields_only_updatedAt_witness :
    findByID ⟨3, [⟨1, "2025-03-10", "Lunch", 40, "Food", 7, 7⟩,
        ⟨2, "2025-03-11", "Bus", 2, "Transit", 8, 8⟩], [("2025-03", 50)]⟩ 1 =
      some ⟨1, "2025-03-10", "Lunch", 40, "Food", 7, 7⟩ ∧ (1 : Nat) ≠ 0 ∧
      ∃ st' w, cmdUpdate ⟨3, [⟨1, "2025-03-10", "Lunch", 40, "Food", 7, 7⟩,
          ⟨2, "2025-03-11", "Bus", 2, "Transit", 8, 8⟩], [("2025-03", 50)]⟩
          ⟨1, "", none, "", ""⟩ 99 = .ok (st', w) ∧
        st'.nextId = 3 ∧ st'.budgets = [("2025-03", 50)] ∧
        st'.expenses = replaceByID [⟨1, "2025-03-10", "Lunch", 40, "Food", 7, 7⟩,
          ⟨2, "2025-03-11", "Bus", 2, "Transit", 8, 8⟩] 1
          ⟨1, "2025-03-10", "Lunch", 40, "Food", 7, 99⟩ ∧
        st'.expenses.length = 2 ∧
        findByID st' 1 = some ⟨1, "2025-03-10", "Lunch", 40, "Food", 7, 99⟩ ∧
        (∀ (k : Nat) (x : Expense),
          ([⟨1, "2025-03-10", "Lunch", 40, "Food", 7, 7⟩,
            ⟨2, "2025-03-11", "Bus", 2, "Transit", 8, 8⟩] : List Expense)[k]? = some x →
          x.id ≠ 1 → st'.expenses[k]? = some x) :=
  ⟨by decide, by decide,
    update_noFields_only_updatedAt
      ⟨3, [⟨1, "2025-03-10", "Lunch", 40, "Food", 7, 7⟩,
        ⟨2, "2025-03-11", "Bus", 2, "Transit", 8, 8⟩], [("2025-03", 50)]⟩ 1 99
      ⟨1, "2025-03-10", "Lunch", 40, "Food", 7, 7⟩ (by decide) (by decide)⟩

/-- C10: the stored category of a new expense is always the trimmed supplied
category; a whitespace-only supplied category is stored as the empty string,
and the `"General"` default is used only when the flag is omitted. -/
theorem add_category_trimmed (st : Store) (a : AddArgs) (today : String) (now : Nat)
    (st' : Store) (nid : Nat) (w : Option BudgetWarning)
    (h : cmdAdd st a today now = .ok (st', nid, w)) :
    ∃ e, st'.expenses = st.expenses ++ [e] ∧
      e.category = goTrim (a.category.getD defaultCat) ∧
      (a.category = none → e.category = defaultCat) ∧
      (∀ c, a.category = some c → e.category = goTrim c) := by
  obtain ⟨d, -, hst, -, -⟩ := cmdAdd_ok h
  subst hst
  refine ⟨_, rfl, rfl, ?_, ?_⟩
  · intro hnone
    rw [hnone]
    rfl
  · intro c hc
    rw [hc]
    rfl

/-- Witness for C10: a whitespace-only `--category "   "` is stored as the
empty string, not replaced by `"General"`. -/
theorem add_category_trimmed_witness :
    goTrim "   " = "" ∧
    cmdAdd freshStore ⟨"Tea", 5, "2025-03-10", some "   "⟩ "2025-03-10" 3 =
      .ok (⟨2, [⟨1, "2025-03-10", "Tea", 5, "", 3, 3⟩], []⟩, 1, none) ∧
    (∃ e, (Store.mk 2 [⟨1, "2025-03-10", "Tea", 5, "", 3, 3⟩] []).expenses =
        freshStore.expenses ++ [e] ∧
      e.category = goTrim ((some "   ").getD defaultCat) ∧
      ((some "   " : Option String) = none → e.category = defaultCat) ∧
      (∀ c, (some "   " : Option String) = some c → e.category = goTrim c)) :=
  ⟨by decide, rfl,
    add_category_trimmed freshStore ⟨"Tea", 5, "2025-03-10", some "   "⟩ "2025-03-10" 3
      ⟨2, [⟨1, "2025-03-10", "Tea", 5, "", 3, 3⟩], []⟩ 1 none rfl⟩

/-- C3: a successful add assigns exactly the pre-add `nextId` and bumps the
counter by one; no operation ever decreases `nextId`; id bounds are an
invariant of every operation; and an id that was present when a delete
succeeded can never be assigned by an add after any further sequence of
operations. -/
theorem ids_never_reused :
    (∀ st a today now st' nid w, cmdAdd st a today now = .ok (st', nid, w) →
      nid = st.nextId ∧ st'.nextId = st.nextId + 1) ∧
    (∀ st op, st.nextId ≤ (step st op).nextId) ∧
    (∀ st op, idsBound st → idsBound (step st op)) ∧
    (∀ st i st₁, idsBound st → cmdDelete st i = .ok st₁ →
      ∀ (ops : List Op) a today now st₂ nid w,
        cmdAdd (List.foldl step st₁ ops) a today now = .ok (st₂, nid, w) → nid ≠ i) := by
  refine ⟨?_, step_nextId_mono, fun st op h => step_idsBound h op, ?_⟩
  · intro st a today now st' nid w h
    obtain ⟨d, -, hst, hnid, -⟩ := cmdAdd_ok h
    subst hst
    exact ⟨hnid, rfl⟩
  · intro st i st₁ hbound hdel ops a today now st₂ nid w hadd
    obtain ⟨-, ⟨e, hfind⟩, hst₁⟩ := cmdDelete_ok hdel
    obtain ⟨hm, hei⟩ := findByID_mem hfind
    have h1 : i < st.nextId := hei ▸ hbound e hm
    have h2 : st₁.nextId = st.nextId := by rw [hst₁]
    have h3 : st₁.nextId ≤ (List.foldl step st₁ ops).nextId := foldl_step_nextId_mono st₁ ops
    obtain ⟨d, -, -, hnid, -⟩ := cmdAdd_ok hadd
    omega

/-- Witness for C3: after deleting id 1, an add on the resulting store assigns
id 2, not the freed id 1. -/
theorem ids_never_reused_witness :
    idsBound ⟨2, [⟨1, "2025-03-10", "Lunch", 40, "Food", 7, 7⟩], []⟩ ∧
    cmdDelete ⟨2, [⟨1, "2025-03-10", "Lunch", 40, "Food", 7, 7⟩], []⟩ 1 =
      .ok ⟨2, [], []⟩ ∧
    cmdAdd (([] : List Op).foldl step ⟨2, [], []⟩) ⟨"Tea", 5, "2025-03-10", none⟩
      "2025-03-10" 9 =
      .ok (⟨3, [⟨2, "2025-03-10", "Tea", 5, "General", 9, 9⟩], []⟩, 2, none) ∧
    (2 : Nat) ≠ 1 :=
  ⟨by decide, rfl, rfl,
    ids_never_reused.2.2.2 ⟨2, [⟨1, "2025-03-10", "Lunch", 40, "Food", 7, 7⟩], []⟩ 1
      ⟨2, [], []⟩ (by decide) rfl [] ⟨"Tea", 5, "2025-03-10", none⟩ "2025-03-10" 9
      ⟨3, [⟨2, "2025-03-10", "Tea", 5, "General", 9, 9⟩], []⟩ 2 none rfl⟩

/-- C2 counterexample: the claim that every reachable store's budgets are all
strictly positive is false — `budget --set 0` is accepted (the Go guard is
`*set >= 0`) and stores a zero limit. -/
theorem budget_zero_stored :
    ¬ (∀ p ∈ (step freshStore (.budget 0 3 2025 3 2025)).budgets, 0 < p.2) := by
  intro hall
  have hst : step freshStore (.budget 0 3 2025 3 2025) = ⟨1, [], [("2025-03", 0)]⟩ := rfl
  have h0 := hall ("2025-03", 0) (by rw [hst]; exact List.mem_singleton.mpr rfl)
  exact absurd h0 (lt_irrefl 0)

/-- C2 amended: a budget set stores any non-negative amount (zero included)
for the month key, overwriting exactly that key; and non-negativity (not
strict positivity) of all stored budget values is an invariant of every
operation. -/
theorem budget_set_stores_nonneg :
    (∀ st setVal month year cm cy st' r, 0 ≤ setVal →
      cmdBudget st setVal month year cm cy = .ok (st', r) →
      ∃ mk, st'.budgets = setAssoc st.budgets mk setVal ∧
        lookupBudget st'.budgets mk = some setVal ∧
        (∀ k, k ≠ mk → lookupBudget st'.budgets k = lookupBudget st.budgets k) ∧
        st'.expenses = st.expenses ∧ st'.nextId = st.nextId) ∧
    (∀ st op, (∀ p ∈ st.budgets, 0 ≤ p.2) → ∀ p ∈ (step st op).budgets, 0 ≤ p.2) := by
  refine ⟨?_, fun st op h => step_budgets_nonneg h op⟩
  intro st setVal month year cm cy st' r hs h
  obtain ⟨hnid, hexp, hset | hread⟩ := cmdBudget_ok h
  · obtain ⟨-, hbud⟩ := hset
    refine ⟨_, hbud, ?_, ?_, hexp, hnid⟩
    · rw [hbud]
      exact lookup_setAssoc_self _ _ _
    · intro k hk
      rw [hbud, lookup_setAssoc_ne _ _ _ _ hk]
  · exact absurd hread.1 (not_lt.mpr hs)

/-- Witness for the amended C2: setting budget 0 stores key `2025-03` with
value 0 and leaves everything else alone. -/
theorem budget_set_stores_nonneg_witness :
    (0 : ℚ) ≤ 0 ∧
    cmdBudget freshStore 0 3 2025 3 2025 = .ok (⟨1, [], [("2025-03", 0)]⟩, none) ∧
    (∃ mk, (Store.mk 1 [] [("2025-03", 0)]).budgets = setAssoc freshStore.budgets mk 0 ∧
      lookupBudget (Store.mk 1 [] [("2025-03", 0)]).budgets mk = some 0 ∧
      (∀ k, k ≠ mk → lookupBudget (Store.mk 1 [] [("2025-03", 0)]).budgets k =
        lookupBudget freshStore.budgets k) ∧
      (Store.mk 1 [] [("2025-03", 0)]).expenses = freshStore.expenses ∧
      (Store.mk 1 [] [("2025-03", 0)]).nextId = freshStore.nextId) :=
  ⟨by decide, rfl,
    budget_set_stores_nonneg.1 freshStore 0 3 2025 3 2025
      ⟨1, [], [("2025-03", 0)]⟩ none (by decide) rfl⟩

/-- C8: `list` and `export` default an absent year to the current year exactly
when a month is given, and on equal filters the row count `export` reports
(and the number of data rows it writes) equals the number of expenses `list`
prints. -/
theorem list_export_agree :
    (∀ st m c cy, 0 < m → cmdList st m 0 c cy = cmdList st m cy c cy) ∧
    (∀ st m c cy, 0 < m → cmdExport st m 0 c cy = cmdExport st m cy c cy) ∧
    (∀ st m y c cy, (cmdExport st m y c cy).map (fun p => p.2) =
      (cmdList st m y c cy).map List.length) ∧
    (∀ st m y c cy rows cnt, cmdExport st m y c cy = .ok (rows, cnt) →
      rows.length = cnt) := by
  refine ⟨?_, ?_, ?_, ?_⟩
  · intro st m c cy hm
    have hne : m ≠ 0 := Nat.pos_iff_ne_zero.mp hm
    unfold cmdList
    simp [hm, hne]
  · intro st m c cy hm
    have hne : m ≠ 0 := Nat.pos_iff_ne_zero.mp hm
    unfold cmdExport
    simp [hm, hne]
  · intro st m y c cy
    unfold cmdList cmdExport
    by_cases hg : m ≠ 0 ∧ (m < 1 ∨ 12 < m)
    · rw [if_pos hg, if_pos hg]
      rfl
    · rw [if_neg hg, if_neg hg]
      rfl
  · intro st m y c cy rows cnt h
    unfold cmdExport at h
    split at h
    · exact absurd h (by simp)
    · simp only [Except.ok.injEq, Prod.mk.injEq] at h
      obtain ⟨h1, h2⟩ := h
      subst h1
      subst h2
      simp

/-- Witness for C8: a month without a year behaves like the current year, and
the reported export count matches the list length on the empty store. -/
theorem list_export_agree_witness :
    (0 : Nat) < 3 ∧
    cmdList freshStore 3 0 "" 2025 = cmdList freshStore 3 2025 "" 2025 ∧
    (cmdExport freshStore 3 0 "" 2025).map (fun p => p.2) =
      (cmdList freshStore 3 0 "" 2025).map List.length :=
  ⟨by decide, list_export_agree.1 freshStore 3 "" 2025 (by decide),
    list_export_agree.2.2.1 freshStore 3 0 "" 2025⟩

/-- C6: the filter result contains exactly the expenses satisfying every
supplied constraint (month/year 0 and empty category mean unconstrained,
category compared case-insensitively, expenses with unparseable dates dropped
under a month or year constraint), as a permutation of the matching
subsequence, and it is sorted ascending by date text with ties broken by
ascending id. -/
theorem filterExpenses_correct (st : Store) (month year : Nat) (category : String) :
    (∀ e, e ∈ filterExpenses st month year category ↔
      (e ∈ st.expenses ∧
        (category = "" ∨ eqFold category e.category = true) ∧
        ((month = 0 ∧ year = 0) ∨
          ∃ y m d, parseDate e.date = some (y, m, d) ∧
            (year = 0 ∨ y = year) ∧ (month = 0 ∨ m = month)))) ∧
    (filterExpenses st month year category).Pairwise
      (fun a b => ltChars a.date.data b.date.data = true ∨
        (a.date = b.date ∧ a.id ≤ b.id)) ∧
    (filterExpenses st month year category).Perm
      (st.expenses.filter (matchesFilter month year category)) := by
  refine ⟨?_, ?_, List.mergeSort_perm _ _⟩
  · intro e
    rw [mem_filterExpenses, matchesFilter_iff]
  · exact (pairwise_filterExpenses st month year category).imp
      (fun h => (expLe_iff _ _).mp h)

/-- Witness for C6: the sorted filter of a concrete store is a permutation of
its matching subsequence. -/
theorem filterExpenses_correct_witness :
    (filterExpenses ⟨4, [⟨2, "2025-03-11", "b", 2, "Food", 0, 0⟩,
        ⟨1, "2025-03-11", "a", 1, "food", 0, 0⟩,
        ⟨3, "2025-03-10", "c", 3, "Bar", 0, 0⟩], []⟩ 3 2025 "FOOD").Perm
      (([⟨2, "2025-03-11", "b", 2, "Food", 0, 0⟩,
        ⟨1, "2025-03-11", "a", 1, "food", 0, 0⟩,
        ⟨3, "2025-03-10", "c", 3, "Bar", 0, 0⟩] : List Expense).filter
        (matchesFilter 3 2025 "FOOD")) :=
  (filterExpenses_correct ⟨4, [⟨2, "2025-03-11", "b", 2, "Food", 0, 0⟩,
    ⟨1, "2025-03-11", "a", 1, "food", 0, 0⟩,
    ⟨3, "2025-03-10", "c", 3, "Bar", 0, 0⟩], []⟩ 3 2025 "FOOD").2.2

/-- C5: the budget warning is emitted if and only if the affected date's month
key carries a configured budget `> 0` and the month's unrestricted total
strictly exceeds it; a successful add or update persists its mutation
independently of the warning; and in the concrete scenario (budget 50, add 40,
add 20 in one month) the second add warns with budget 50 and spent 60. -/
theorem budget_warning_correct :
    (∀ st d, (warnIfBudgetExceeded st d "").isSome ↔
      ∃ mk, monthKeyFromDate d = some mk ∧ ∃ b, lookupBudget st.budgets mk = some b ∧
        0 < b ∧ b < sumForMonth st mk "") ∧
    (∀ st a today now st' nid w, cmdAdd st a today now = .ok (st', nid, w) →
      ∃ e, st'.expenses = st.expenses ++ [e] ∧ w = warnIfBudgetExceeded st' e.date "" ∧
        st'.nextId = st.nextId + 1 ∧ st'.budgets = st.budgets) ∧
    (∀ st a now st' w, cmdUpdate st a now = .ok (st', w) →
      (∃ e, findByID st' a.id = some e ∧ w = warnIfBudgetExceeded st' e.date "") ∧
        st'.nextId = st.nextId ∧ st'.budgets = st.budgets) ∧
    (List.foldl step freshStore
        [.budget 50 3 2025 3 2025, .add ⟨"Lunch", 40, "2025-03-10", none⟩ "2025-03-10" 7] =
      ⟨2, [⟨1, "2025-03-10", "Lunch", 40, "General", 7, 7⟩], [("2025-03", 50)]⟩ ∧
      cmdAdd ⟨2, [⟨1, "2025-03-10", "Lunch", 40, "General", 7, 7⟩], [("2025-03", 50)]⟩
        ⟨"Dinner", 20, "2025-03-11", none⟩ "2025-03-11" 9 =
        .ok (⟨3, [⟨1, "2025-03-10", "Lunch", 40, "General", 7, 7⟩,
          ⟨2, "2025-03-11", "Dinner", 20, "General", 9, 9⟩], [("2025-03", 50)]⟩, 2,
          some ⟨"2025-03", 50, 60⟩)) := by
  refine ⟨?_, ?_, ?_, ?_, ?_⟩
  · intro st d
    unfold warnIfBudgetExceeded
    cases hmk : monthKeyFromDate d with
    | none => simp
    | some mk =>
      cases hb : lookupBudget st.budgets mk with
      | none => simp [hb]
      | some b =>
        simp only [hb]
        by_cases hb0 : b ≤ 0
        · rw [if_pos hb0]
          simp only [Option.isSome_none, Bool.false_eq_true, false_iff, not_exists]
          rintro mk' ⟨hmk', b', hb', h0, -⟩
          obtain rfl : mk = mk' := by simpa using hmk'
          rw [hb] at hb'
          obtain rfl : b = b' := by simpa using hb'
          exact absurd h0 (not_lt.mpr hb0)
        · rw [if_neg hb0]
          by_cases hlt : b < sumForMonth st mk ""
          · rw [if_pos hlt]
            simp only [Option.isSome_some, true_iff]
            exact ⟨mk, rfl, b, hb, not_le.mp hb0, hlt⟩
          · rw [if_neg hlt]
            simp only [Option.isSome_none, Bool.false_eq_true, false_iff, not_exists]
            rintro mk' ⟨hmk', b', hb', -, hlt'⟩
            obtain rfl : mk = mk' := by simpa using hmk'
            rw [hb] at hb'
            obtain rfl : b = b' := by simpa using hb'
            exact absurd hlt' hlt
  · intro st a today now st' nid w h
    obtain ⟨d, -, hst, -, hw⟩ := cmdAdd_ok h
    subst hst
    exact ⟨_, rfl, hw, rfl, rfl⟩
  · intro st a now st' w h
    obtain ⟨-, e, e2, e3, e4, hfind, hamt, hdate, he4, hst, hw⟩ := cmdUpdate_ok h
    have hid4 : e4.id = a.id := by
      subst he4
      show (applyCategory e3 a.category).id = a.id
      rw [applyCategory_id, applyDate_ok_id hdate, applyAmount_ok_id hamt,
        applyDescription_id]
      exact (findByID_mem hfind).2
    subst hst
    refine ⟨⟨e4, ?_, hw⟩, rfl, rfl⟩
    show (replaceByID st.expenses a.id e4).find? (fun x => x.id == a.id) = some e4
    exact find?_replaceByID hid4 hfind
  · have h1 : step freshStore (.budget 50 3 2025 3 2025) = ⟨1, [], [("2025-03", 50)]⟩ := rfl
    have h2 : cmdAdd ⟨1, [], [("2025-03", 50)]⟩ ⟨"Lunch", 40, "2025-03-10", none⟩
        "2025-03-10" 7 =
        .ok (⟨2, [⟨1, "2025-03-10", "Lunch", 40, "General", 7, 7⟩], [("2025-03", 50)]⟩,
          1, none) := by
      norm_num [cmdAdd, parseDateOrToday, warnIfBudgetExceeded, lookupBudget, sumForMonth,
        List.foldl, List.find?, defaultCat, Option.getD,
        show goTrim "Lunch" = "Lunch" from by decide,
        show goTrim "General" = "General" from by decide,
        show (parseDate "2025-03-10").isSome = true from by decide,
        show monthKeyFromDate "2025-03-10" = some "2025-03" from by decide,
        (by decide : ¬("Lunch" : String) = "")]
    show step (step freshStore (.budget 50 3 2025 3 2025))
        (.add ⟨"Lunch", 40, "2025-03-10", none⟩ "2025-03-10" 7) = _
    rw [h1]
    simp only [step, h2]
  · norm_num [cmdAdd, parseDateOrToday, warnIfBudgetExceeded, lookupBudget, sumForMonth,
      List.foldl, List.find?, defaultCat, Option.getD,
      show goTrim "Dinner" = "Dinner" from by decide,
      show goTrim "General" = "General" from by decide,
      show (parseDate "2025-03-11").isSome = true from by decide,
      show monthKeyFromDate "2025-03-11" = some "2025-03" from by decide,
      show monthKeyFromDate "2025-03-10" = some "2025-03" from by decide,
      (by decide : ¬("Dinner" : String) = "")]

/-- Witness for C5: the emitted warning of the scenario's second add satisfies
the if-and-only-if characterization. -/
theorem budget_warning_correct_witness :
    cmdAdd ⟨2, [⟨1, "2025-03-10", "Lunch", 40, "General", 7, 7⟩], [("2025-03", 50)]⟩
        ⟨"Dinner", 20, "2025-03-11", none⟩ "2025-03-11" 9 =
      .ok (⟨3, [⟨1, "2025-03-10", "Lunch", 40, "General", 7, 7⟩,
        ⟨2, "2025-03-11", "Dinner", 20, "General", 9, 9⟩], [("2025-03", 50)]⟩, 2,
        some ⟨"2025-03", 50, 60⟩) ∧
      ∃ e, (Store.mk 3 [⟨1, "2025-03-10", "Lunch", 40, "General", 7, 7⟩,
          ⟨2, "2025-03-11", "Dinner", 20, "General", 9, 9⟩] [("2025-03", 50)]).expenses =
        (Store.mk 2 [⟨1, "2025-03-10", "Lunch", 40, "General", 7, 7⟩]
          [("2025-03", 50)]).expenses ++ [e] ∧
        some (BudgetWarning.mk "2025-03" 50 60) =
          warnIfBudgetExceeded (Store.mk 3 [⟨1, "2025-03-10", "Lunch", 40, "General", 7, 7⟩,
            ⟨2, "2025-03-11", "Dinner", 20, "General", 9, 9⟩] [("2025-03", 50)]) e.date "" ∧
        (Store.mk 3 [⟨1, "2025-03-10", "Lunch", 40, "General", 7, 7⟩,
          ⟨2, "2025-03-11", "Dinner", 20, "General", 9, 9⟩] [("2025-03", 50)]).nextId =
          (Store.mk 2 [⟨1, "2025-03-10", "Lunch", 40, "General", 7, 7⟩]
            [("2025-03", 50)]).nextId + 1 ∧
        (Store.mk 3 [⟨1, "2025-03-10", "Lunch", 40, "General", 7, 7⟩,
          ⟨2, "2025-03-11", "Dinner", 20, "General", 9, 9⟩] [("2025-03", 50)]).budgets =
          (Store.mk 2 [⟨1, "2025-03-10", "Lunch", 40, "General", 7, 7⟩]
            [("2025-03", 50)]).budgets := by
  have h := budget_warning_correct.2.2.2.2
  exact ⟨h, budget_warning_correct.2.1
    ⟨2, [⟨1, "2025-03-10", "Lunch", 40, "General", 7, 7⟩], [("2025-03", 50)]⟩
    ⟨"Dinner", 20, "2025-03-11", none⟩ "2025-03-11" 9
    ⟨3, [⟨1, "2025-03-10", "Lunch", 40, "General", 7, 7⟩,
      ⟨2, "2025-03-11", "Dinner", 20, "General", 9, 9⟩], [("2025-03", 50)]⟩ 2
    (some ⟨"2025-03", 50, 60⟩) h⟩

end ExpTrack
